import Mathlib

/-!
Verification of the analytical core of the DUKCAPIL NIK-verification dashboard
(src/EKYC.py) against its natural-language specification.

The shallow embedding below translates the pandas pipeline of EKYC.py into
executable Lean definitions:

* a dataframe row becomes an `Event`; the `CreatedDate` column (parsed with
  `pd.to_datetime(..., errors="coerce")`, line 30) becomes `createdAt :
  Option Int`, an integer timestamp in milliseconds (`none` models `NaT`,
  the unparseable sentinel).  pandas itself stores timestamps as 64-bit
  integers, so integer arithmetic is exact here; second-based thresholds in
  the source are scaled by 1000.
* the nine tracked demographic columns (`status_cols`, lines 32-40) become
  `statusCols`; missing cells are `"-"` (the `fillna("-")` of line 40).
* float ratios of the source (quality score, cost efficiency, variance) are
  represented exactly in `ℚ` via `Rat.divInt`.
* pandas operations are translated by their documented semantics:
  `groupby` enumerates distinct keys in ascending sorted order;
  `sort_values` sorts by the given key only (ties keep input order; the
  source applies no further tie-break key); `Series.idxmax`/`idxmin` return
  the first position attaining the extremum and raise `ValueError` on an
  empty series, which the embedding models as `Option` with `none` for the
  raising case; `Series.mode()` returns the modal values sorted ascending.
-/

namespace EKYC

/-- One row of the verification log (one dataframe row of `df` /
`df_f` in EKYC.py).  `createdAt` is the parsed `CreatedDate` in integer
milliseconds, `none` when `pd.to_datetime` coerced the cell to `NaT`
(line 30).  `statuses` holds the row's cells for the tracked columns as an
association list; absent columns read as `"-"`. -/
structure Event where
  id : Nat
  nik : String
  createdAt : Option Int
  sourceResult : String
  sourceApp : String
  statuses : List (String × String)
deriving DecidableEq, Repr

/-- The nine tracked demographic columns, `status_cols` of lines 32-36. -/
def statusCols : List String :=
  ["NamaDenganGelar", "Nama", "JenisKelamin",
   "TempatLahir", "TglLahir",
   "Provinsi", "Kabupaten", "Kecamatan", "Kelurahan"]

/-- Read a tracked column of a row; missing cells default to "-"
(the `fillna("-")` of line 40). -/
def getStatus (e : Event) (c : String) : String := (e.statuses.lookup c).getD "-"

/-- The timestamp of a row.  Used only on rows that survived the filter of
lines 61-64, where `createdAt` is always `some`; the default is never read
in those contexts. -/
def ts (e : Event) : Int := e.createdAt.getD 0

/-- Calendar-day index of a millisecond timestamp (`CreatedDate.dt.date`):
floor division by the number of milliseconds in a day.  Lean's `Int`
division is Euclidean, which is floor division for our use. -/
def dateOf (t : Int) : Int := t / 86400000

/-- The date test of the filter (line 63):
`df["CreatedDate"].dt.date.between(date_range[0], date_range[1])`.
For a `NaT` timestamp the pandas comparison is `False`, so the row is
dropped. -/
def inDateRange (d1 d2 : Int) : Option Int → Bool
  | none => false
  | some t => decide (d1 ≤ dateOf t ∧ dateOf t ≤ d2)

/-- The sidebar filter producing `df_f` (lines 61-64): the source must be in
the allow-list and the calendar day must lie in the inclusive range. -/
def filterEvents (evs : List Event) (allow : List String) (d1 d2 : Int) : List Event :=
  evs.filter (fun e => allow.contains e.sourceResult && inDateRange d1 d2 e.createdAt)

/-- `total_requests = len(df_f)` (line 103). -/
def totalRequests (l : List Event) : Nat := l.length

/-- Modelled from the spec: the row count the specification says is
"retained" for unparseable-timestamp rows — rows passing the source
allow-list regardless of their timestamp ("such rows are ... retained in
row counts where timestamp is irrelevant", spec section 7).  The source has
no such count: every count is taken over `df_f`, which the date filter has
already purged of `NaT` rows. -/
def retainedRequestCount (evs : List Event) (allow : List String) : Nat :=
  (evs.filter (fun e => allow.contains e.sourceResult)).length

/-- Distinct values of a list in order of first appearance — the semantics
of `pandas.Series.unique()` (used at lines 529 and 697).  `List.dedup`
keeps the last occurrence, so we reverse around it. -/
def uniqueFirst {α : Type} [DecidableEq α] (l : List α) : List α :=
  l.reverse.dedup.reverse

/-! ### Code-point order on strings

Python compares strings lexicographically by code point; pandas uses that
order when `groupby` sorts its keys and when `Series.mode()` sorts the
modal values.  Lean's built-in `String` order does not reduce inside
`decide`, so we embed the same order explicitly on the character lists. -/

/-- Lexicographic strict order on char lists by code point. -/
def chainLtb : List Char → List Char → Bool
  | [], [] => false
  | [], _ :: _ => true
  | _ :: _, [] => false
  | a :: as, b :: bs =>
    if a.toNat < b.toNat then true
    else if b.toNat < a.toNat then false
    else chainLtb as bs

/-- Python's `<` on strings. -/
def strLtb (a b : String) : Bool := chainLtb a.data b.data

/-- Python's `<=` on strings (total order, so `a <= b` iff not `b < a`). -/
def strLE (a b : String) : Prop := strLtb b a = false

instance : DecidableRel strLE := fun a b => inferInstanceAs (Decidable (strLtb b a = false))

/-- Ascending code-point sort, the key order `pandas.groupby` presents its
groups in. -/
def sortStrings (l : List String) : List String := List.insertionSort strLE l

/-! ### Per-NIK chronological ordering -/

/-- The rows of one NIK (`df_f[df_f["Nik"] == nik]`). -/
def perNik (evs : List Event) (nik : String) : List Event :=
  evs.filter (fun e => e.nik == nik)

/-- Comparison used by `sort_values("CreatedDate")` (line 530) and by the
`CreatedDate` component of `sort_values(["Nik", "CreatedDate"])` (line
652): the timestamp alone.  The source applies no id tie-break; rows with
equal timestamps keep their relative input order (stable insertion sort
mirrors that position-dependence). -/
def timeLE (a b : Event) : Prop := ts a ≤ ts b

instance : DecidableRel timeLE := fun a b => inferInstanceAs (Decidable (ts a ≤ ts b))

instance : IsTotal Event timeLE := ⟨fun a b => Int.le_total (ts a) (ts b)⟩

instance : IsTrans Event timeLE := ⟨fun _ _ _ h1 h2 => le_trans h1 h2⟩

/-- Stable sort by timestamp only — the order-sensitive step of the
degradation scan (line 530) and of the rapid-fire scan within one NIK
(lines 652-653). -/
def sortByTime (l : List Event) : List Event := List.insertionSort timeLE l

/-- One NIK's rows in the code's chronological order:
`df_f[df_f["Nik"] == nik].sort_values("CreatedDate")` (line 530). -/
def perNikSorted (evs : List Event) (nik : String) : List Event :=
  sortByTime (perNik evs nik)

/-- Modelled from the spec: the explicit sort key "timestamp, then id"
that section 4.1 prescribes for the Sequence Classifier (absent from
src/EKYC.py). -/
def tidLE (a b : Event) : Prop := ts a < ts b ∨ (ts a = ts b ∧ a.id ≤ b.id)

instance : DecidableRel tidLE := fun a b =>
  inferInstanceAs (Decidable (ts a < ts b ∨ (ts a = ts b ∧ a.id ≤ b.id)))

instance : IsTotal Event tidLE :=
  ⟨fun a b => by
    rcases lt_trichotomy (ts a) (ts b) with h | h | h
    · exact Or.inl (Or.inl h)
    · rcases Nat.le_total a.id b.id with hi | hi
      · exact Or.inl (Or.inr ⟨h, hi⟩)
      · exact Or.inr (Or.inr ⟨h.symm, hi⟩)
    · exact Or.inr (Or.inl h)⟩

instance : IsTrans Event tidLE :=
  ⟨fun a b c h1 h2 => by
    rcases h1 with h1 | ⟨e1, i1⟩
    · rcases h2 with h2 | ⟨e2, _⟩
      · exact Or.inl (lt_trans h1 h2)
      · exact Or.inl (e2 ▸ h1)
    · rcases h2 with h2 | ⟨e2, i2⟩
      · exact Or.inl (e1 ▸ h2)
      · exact Or.inr ⟨e1.trans e2, le_trans i1 i2⟩⟩

/-- Modelled from the spec: sort by timestamp, ties broken by event id
(section 4.1). -/
def sortByTimeId (l : List Event) : List Event := List.insertionSort tidLE l

/-! ### Degradation detection (lines 527-555) -/

/-- One appended record of `degradation_results` (lines 542-555).
`Status_Awal`/`Status_Akhir` are the constants "Sesuai"/"Tidak Sesuai" and
are omitted; `gapMs` is the exact time difference in milliseconds (the
source stores it divided by 3 600 000 as fractional hours,
`Selisih_Waktu_Jam`). -/
structure Degradation where
  nik : String
  field : String
  tFirst : Int
  tSecond : Int
  gapMs : Int
  srcFirst : String
  srcSecond : String
  appFirst : String
  appSecond : String
  totalHit : Nat
deriving DecidableEq, Repr

/-- The inner loop of lines 540-555 for one tracked column: every adjacent
pair of the chronologically ordered rows with "Sesuai" immediately followed
by "Tidak Sesuai" produces a record. -/
def degradationPairs (nik : String) (tot : Nat) (col : String) (g : List Event) :
    List Degradation :=
  (g.zip g.tail).filterMap (fun p =>
    if getStatus p.1 col == "Sesuai" && getStatus p.2 col == "Tidak Sesuai" then
      some { nik := nik, field := col, tFirst := ts p.1, tSecond := ts p.2,
             gapMs := ts p.2 - ts p.1,
             srcFirst := p.1.sourceResult, srcSecond := p.2.sourceResult,
             appFirst := p.1.sourceApp, appSecond := p.2.sourceApp, totalHit := tot }
    else none)

/-- Lines 532-555 for one NIK, given its chronologically sorted rows: NIKs
with at most one row are skipped (`if len(df_nik_check) > 1`), otherwise
the columns are scanned in `status_cols` order. -/
def degradationOfSorted (nik : String) (g : List Event) : List Degradation :=
  if 1 < g.length then
    (statusCols.map (fun col => degradationPairs nik g.length col g)).flatten
  else []

/-- The degradation findings of one NIK (lines 529-555). -/
def degradationFor (evs : List Event) (nik : String) : List Degradation :=
  degradationOfSorted nik (perNikSorted evs nik)

/-- `degradation_results` (lines 527-555): the outer loop walks
`df_f["Nik"].unique()` in order of first appearance. -/
def degradationAll (evs : List Event) : List Degradation :=
  ((uniqueFirst (evs.map (fun e => e.nik))).map (fun nik => degradationFor evs nik)).flatten

/-! ### Rapid-fire detection (lines 652-656) -/

/-- The rapid-fire threshold: "< 5 detik" (line 655-656), in milliseconds. -/
def rapidThresholdMs : Int := 5000

/-- `groupby("Nik")["CreatedDate"].diff()` restricted to one NIK's sorted
rows (line 653): the first row has no predecessor (`NaN`, modelled as
`none`); every later row carries the gap to its immediate predecessor. -/
def diffsOfSorted (g : List Event) : List (Event × Option Int) :=
  match g with
  | [] => []
  | e :: r => (e, none) :: (((e :: r).zip r).map (fun p => (p.2, some (ts p.2 - ts p.1))))

/-- `rapid_fire = df_f_sorted[df_f_sorted["Time_Diff"] < 5]` (line 656)
restricted to one NIK: rows whose gap is strictly below the threshold.
A `NaN` gap compares `False` in pandas, so first rows are never kept. -/
def rapidOfSorted (g : List Event) : List (Event × Int) :=
  (diffsOfSorted g).filterMap (fun p =>
    match p.2 with
    | some d => if d < rapidThresholdMs then some (p.1, d) else none
    | none => none)

/-- The flagged rows of one NIK.  `sort_values(["Nik", "CreatedDate"])`
followed by `groupby("Nik").diff()` computes, for each NIK, the diffs of
that NIK's rows in timestamp order, which is what this function embeds. -/
def rapidFireFor (evs : List Event) (nik : String) : List (Event × Int) :=
  rapidOfSorted (perNikSorted evs nik)

/-- All flagged rows (line 656); NIK groups appear in ascending NIK order
because the frame was sorted by `["Nik", "CreatedDate"]`. -/
def rapidFireAll (evs : List Event) : List (Event × Int) :=
  ((sortStrings (uniqueFirst (evs.map (fun e => e.nik)))).map
    (fun nik => rapidFireFor evs nik)).flatten

/-! ### Cross-source disagreement (lines 695-711) -/

/-- Frequency of the most frequent value of the list. -/
def maxFreq (xs : List String) : Nat :=
  ((uniqueFirst xs).map (fun v => xs.count v)).foldr max 0

/-- The distinct values attaining the maximal frequency, in order of first
appearance. -/
def modalSet (xs : List String) : List String :=
  (uniqueFirst xs).filter (fun v => xs.count v == maxFreq xs)

/-- Minimum of a string list in code-point order ("" only for the empty
list, which the callers never pass). -/
def minStr : List String → String
  | [] => ""
  | v :: r => r.foldl (fun m w => if strLtb w m then w else m) v

/-- `x.mode()[0]` (line 702): `Series.mode()` returns the modal values
sorted ascending, so taking entry 0 yields the smallest modal value in
code-point order.  (The source's fallback `x.iloc[0]` is dead code: the
mode of a nonempty series is never empty.) -/
def modeVal (xs : List String) : String := minStr (modalSet xs)

/-- Modelled from the spec: the modal value where "first-seen value wins
ties" (section 4.3 and section 9 of the spec).  Strict comparison keeps
the earlier value on equal counts. -/
def modeFirstSeen (xs : List String) : String :=
  match uniqueFirst xs with
  | [] => ""
  | v :: r => r.foldl (fun m w => if xs.count m < xs.count w then w else m) v

/-- One appended record of `cross_inconsistency` (lines 705-711); the
comma-joined strings of the source are kept as lists. -/
structure CrossFinding where
  nik : String
  field : String
  sources : List String
  values : List String
  hitCount : Nat
deriving DecidableEq, Repr

/-- The distinct sources of a group of rows, first-seen order
(`Series.nunique` counts this list; `groupby` sorts it). -/
def sourcesOf (g : List Event) : List String :=
  uniqueFirst (g.map (fun e => e.sourceResult))

/-- `df_nik_cross.groupby("SourceResult")[col].apply(lambda x: x.mode()[0] ...)`
(line 702): for each source in ascending key order, the modal status that
source reported for the column. -/
def crossValues (g : List Event) (col : String) : List String :=
  (sortStrings (sourcesOf g)).map (fun s =>
    modeVal ((g.filter (fun e => e.sourceResult == s)).map (fun e => getStatus e col)))

/-- The cross-source findings of one NIK (lines 697-711): skipped unless
the NIK has more than one distinct source (`nunique() > 1`); a column is
recorded when its per-source modal statuses take more than one distinct
value.  (`perNik evs nik` is the frame `df_nik_cross`.) -/
def crossFor (evs : List Event) (nik : String) : List CrossFinding :=
  if 1 < (sourcesOf (perNik evs nik)).length then
    statusCols.filterMap (fun col =>
      if 1 < (uniqueFirst (crossValues (perNik evs nik) col)).length then
        some { nik := nik, field := col,
               sources := sortStrings (sourcesOf (perNik evs nik)),
               values := crossValues (perNik evs nik) col,
               hitCount := (perNik evs nik).length }
      else none)
  else []

/-- Modelled from the spec: `crossFor` with the spec's tie-break — the
first-seen modal value per source instead of the smallest one. -/
def crossValuesSpec (g : List Event) (col : String) : List String :=
  (sortStrings (sourcesOf g)).map (fun s =>
    modeFirstSeen ((g.filter (fun e => e.sourceResult == s)).map (fun e => getStatus e col)))

/-- Modelled from the spec: cross-source disagreement under the spec's
first-seen tie-break rule. -/
def crossForSpec (evs : List Event) (nik : String) : List CrossFinding :=
  if 1 < (sourcesOf (perNik evs nik)).length then
    statusCols.filterMap (fun col =>
      if 1 < (uniqueFirst (crossValuesSpec (perNik evs nik) col)).length then
        some { nik := nik, field := col,
               sources := sortStrings (sourcesOf (perNik evs nik)),
               values := crossValuesSpec (perNik evs nik) col,
               hitCount := (perNik evs nik).length }
      else none)
  else []

/-- `cross_inconsistency` (lines 695-711), outer loop over
`df_f["Nik"].unique()`. -/
def crossAll (evs : List Event) : List CrossFinding :=
  ((uniqueFirst (evs.map (fun e => e.nik))).map (fun nik => crossFor evs nik)).flatten

/-! ### Source performance (lines 200-209) -/

/-- One row of the `source_perf` table (lines 204-209). -/
structure SourcePerf where
  source : String
  totalRequests : Nat
  uniqueNik : Nat
  qualityScore : ℚ
  costEfficiency : ℚ
  duplicateRate : ℚ
deriving DecidableEq, Repr

/-- The `source_perf` row of one source (lines 200-209):
`Total_Requests` is the group size, `Unique_NIK` the distinct-NIK count,
`Quality_Score` the fraction of "Sesuai" cells over the tracked columns,
`Cost_Efficiency = Unique_NIK / Total_Requests`, and
`Duplicate_Rate = 1 - Cost_Efficiency`. -/
def mkSourcePerf (evs : List Event) (s : String) : SourcePerf :=
  let g := evs.filter (fun e => e.sourceResult == s)
  let uniq := (uniqueFirst (g.map (fun e => e.nik))).length
  { source := s
    totalRequests := g.length
    uniqueNik := uniq
    qualityScore :=
      Rat.divInt
        ((statusCols.map (fun c => (g.filter (fun e => getStatus e c == "Sesuai")).length)).sum)
        (g.length * statusCols.length)
    costEfficiency := Rat.divInt uniq g.length
    duplicateRate := 1 - Rat.divInt uniq g.length }

/-- The `source_perf` table: one row per source value present in `df_f`
(`groupby("SourceResult")` enumerates only present keys, in ascending
order — a source with zero rows has no row here). -/
def sourcePerf (evs : List Event) : List SourcePerf :=
  (sortStrings (sourcesOf evs)).map (fun s => mkSourcePerf evs s)

/-- `source_perf.loc[source_perf["Cost_Efficiency"].idxmin()]` (line 773):
the first row attaining the minimal cost efficiency; `idxmin` raises
`ValueError` on an empty frame, modelled as `none`. -/
def worstSource (evs : List Event) : Option SourcePerf :=
  match sourcePerf evs with
  | [] => none
  | x :: r => some (r.foldl (fun m p => if p.costEfficiency < m.costEfficiency then p else m) x)

/-! ### Hourly volume and anomaly detection (lines 411-436) -/

/-- `CreatedDate.dt.hour` of a millisecond timestamp. -/
def hourOfMs (t : Int) : Nat := ((t / 3600000) % 24).toNat

/-- Number of filtered rows falling in one hour-of-day bucket. -/
def hourCount (evs : List Event) (h : Nat) : Nat :=
  (evs.filter (fun e => hourOfMs (ts e) == h)).length

/-- `hourly = df_f.groupby("Hour").size()` (line 413): the buckets with at
least one row, in ascending hour order; empty hours produce no entry. -/
def hourlyList (evs : List Event) : List (Nat × Nat) :=
  (List.range 24).filterMap (fun h =>
    if hourCount evs h = 0 then none else some (h, hourCount evs h))

/-- `peak_hour = hourly.loc[hourly["Total_Request"].idxmax()]` (line 423):
the first row (smallest hour) attaining the maximal count; `idxmax` raises
`ValueError` on an empty series, modelled as `none`. -/
def peakHour (evs : List Event) : Option (Nat × Nat) :=
  match hourlyList evs with
  | [] => none
  | x :: r => some (r.foldl (fun m p => if m.2 < p.2 then p else m) x)

/-- The square of `std_hourly = hourly["Total_Request"].std()` (line 434),
represented exactly.  pandas `Series.std` uses `ddof = 1` (the sample
standard deviation over the present buckets) and yields `NaN` when fewer
than two buckets are present (`none` here).  With `n` buckets of counts
`x i`, sum `s` and sum of squares `q`, the sample variance
`(Σ (x i - s/n)^2) / (n-1)` equals `(n*q - s*s) / (n*(n-1))`. -/
def hourlyVariance (evs : List Event) : Option ℚ :=
  let counts := (hourlyList evs).map (fun p => (p.2 : Int))
  let n : Int := counts.length
  if n < 2 then none
  else some (Rat.divInt (n * (counts.map (fun c => c * c)).sum - counts.sum * counts.sum)
                        (n * (n - 1)))

/-- Modelled from the spec: the population variance over all 24
hour-of-day buckets, empty hours included as zero counts ("Compute mean
and population standard deviation across the 24 buckets", spec
section 4.2).  With counts `x h`, sum `s` and sum of squares `q`, the
population variance `(Σ (x h - s/24)^2) / 24` equals
`(24*q - s*s) / (24*24)`. -/
def popVariance24 (evs : List Event) : ℚ :=
  let counts := (List.range 24).map (fun h => (hourCount evs h : Int))
  Rat.divInt (24 * (counts.map (fun c => c * c)).sum - counts.sum * counts.sum) (24 * 24)

/-- The anomaly test of line 435,
`hourly["Total_Request"] > mean_hourly + 2 * std_hourly`, decided exactly
over the integers.  With `n` present buckets, count sum `s` and square sum
`q`: `c > s/n + 2*sqrt(v)` iff `n*c - s > 0` and
`(n*c - s)^2 * (n-1) > 4 * n * (n*q - s*s)`, since
`v = (n*q - s*s)/(n*(n-1)) >= 0` and both sides of the squared comparison
are nonnegative.  When `std` is `NaN` (fewer than two buckets) the pandas
comparison is `False`. -/
def bucketAnomalous (evs : List Event) (c : Nat) : Bool :=
  let counts := (hourlyList evs).map (fun p => (p.2 : Int))
  let n : Int := counts.length
  if n < 2 then false
  else
    let s := counts.sum
    let q := (counts.map (fun c => c * c)).sum
    decide (0 < n * c - s) &&
      decide (4 * n * (n * q - s * s) < (n * c - s) * (n * c - s) * (n - 1))

/-- The buckets flagged `Anomaly` at line 435. -/
def hourlyAnomalies (evs : List Event) : List (Nat × Nat) :=
  (hourlyList evs).filter (fun p => bucketAnomalous evs p.2)

/-! ### Sequence Classifier (spec section 4.1; absent from src/EKYC.py) -/

/-- Modelled from the spec: the mutually exclusive cache-attribution
categories of section 3 ("ClassificationResult"). -/
inductive CacheClass where
  | directCache
  | cacheViaBCA
  | cacheViaDukcapil
  | cacheViaDukcapilThenBCA
  | unclassified
deriving DecidableEq, Repr

/-- Modelled from the spec: one NIK's `source_result` values ordered by
timestamp ascending, ties broken by event id ascending (section 4.1). -/
def seqOf (evs : List Event) (nik : String) : List String :=
  (sortByTimeId (perNik evs nik)).map (fun e => e.sourceResult)

/-- Modelled from the spec: the classification of one sequence, evaluated
in the precedence order of section 4.1; entities without `DB_CACHE` are not
eligible and fall to `unclassified`. -/
def classifySeq (s : List String) : CacheClass :=
  if "DB_CACHE" ∈ s then
    if s = ["DB_CACHE"] then .directCache
    else if "DUKCAPIL" ∈ s ∧ "BCA" ∈ s ∧
            s.indexOf "DUKCAPIL" < s.indexOf "BCA" ∧
            s.indexOf "BCA" < s.indexOf "DB_CACHE" then .cacheViaDukcapilThenBCA
    else if "BCA" ∈ s ∧ "DUKCAPIL" ∉ s ∧
            s.indexOf "BCA" < s.indexOf "DB_CACHE" then .cacheViaBCA
    else if "DUKCAPIL" ∈ s ∧ "BCA" ∉ s ∧
            s.indexOf "DUKCAPIL" < s.indexOf "DB_CACHE" then .cacheViaDukcapil
    else .unclassified
  else .unclassified

/-- Modelled from the spec: the per-NIK classification. -/
def classifyFor (evs : List Event) (nik : String) : CacheClass :=
  classifySeq (seqOf evs nik)

/-- Modelled from the spec: the row-level count of a category — "the number
of raw events belonging to entities in that category" (section 4.1). -/
def rowCountFor (evs : List Event) (cat : CacheClass) : Nat :=
  (evs.filter (fun e => decide (classifyFor evs e.nik = cat))).length

/-- The number of adjacent pairs of a status sequence where "Sesuai" is
immediately followed by "Tidak Sesuai" — the quantity the degradation scan
is specified to count per NIK and field. -/
def countAdjSTS (s : List String) : Nat :=
  (s.zip s.tail).countP (fun q => q.1 == "Sesuai" && q.2 == "Tidak Sesuai")

/-! ### Concrete event sets used by the witnesses and counterexamples -/

/-- A row with a parsed timestamp (milliseconds). -/
def mkEv (i : Nat) (nik : String) (t : Int) (src app : String)
    (sts : List (String × String)) : Event :=
  { id := i, nik := nik, createdAt := some t, sourceResult := src,
    sourceApp := app, statuses := sts }

/-- A row whose `CreatedDate` failed to parse (`NaT`). -/
def mkEvNaT (i : Nat) (nik : String) (src app : String) : Event :=
  { id := i, nik := nik, createdAt := none, sourceResult := src,
    sourceApp := app, statuses := [] }

/-- Two rows of one NIK with the same timestamp and opposite "Nama"
statuses. -/
def exTieA : List Event :=
  [mkEv 1 "1" 0 "DUKCAPIL" "app" [("Nama", "Sesuai")],
   mkEv 2 "1" 0 "DUKCAPIL" "app" [("Nama", "Tidak Sesuai")]]

/-- The same two rows in the opposite input order. -/
def exTieB : List Event :=
  [mkEv 2 "1" 0 "DUKCAPIL" "app" [("Nama", "Tidak Sesuai")],
   mkEv 1 "1" 0 "DUKCAPIL" "app" [("Nama", "Sesuai")]]

/-- Two rows of one NIK with distinct timestamps, and a permutation. -/
def exDistinctA : List Event :=
  [mkEv 1 "1" 0 "DUKCAPIL" "app" [("Nama", "Sesuai")],
   mkEv 2 "1" 1000 "DUKCAPIL" "app" [("Nama", "Tidak Sesuai")]]

/-- The permuted copy of `exDistinctA`. -/
def exDistinctB : List Event :=
  [mkEv 2 "1" 1000 "DUKCAPIL" "app" [("Nama", "Tidak Sesuai")],
   mkEv 1 "1" 0 "DUKCAPIL" "app" [("Nama", "Sesuai")]]

/-- One event on day 0; the date range 5..9 of the filter excludes it. -/
def exDay0 : List Event := [mkEv 1 "1" 0 "BCA" "app" []]

/-- One parseable row and one `NaT` row, both with source "BCA". -/
def exNaT : List Event := [mkEv 1 "1" 0 "BCA" "app" [], mkEvNaT 2 "2" "BCA" "app"]

/-- Three rows in hour buckets 0, 0 and 1. -/
def exHours : List Event :=
  [mkEv 1 "1" 0 "BCA" "app" [], mkEv 2 "2" 1000 "BCA" "app" [],
   mkEv 3 "3" 3600000 "BCA" "app" []]

/-- One NIK whose "Nama" statuses are [Sesuai, Tidak Sesuai, Sesuai] in
chronological order. -/
def exSTS : List Event :=
  [mkEv 1 "1" 0 "DUKCAPIL" "app" [("Nama", "Sesuai")],
   mkEv 2 "1" 10000 "DUKCAPIL" "app" [("Nama", "Tidak Sesuai")],
   mkEv 3 "1" 20000 "DUKCAPIL" "app" [("Nama", "Sesuai")]]

/-- One NIK seen by two sources; source "BCA" reports "Tidak Sesuai" first
and "Sesuai" second for "Nama" (a frequency tie), "DUKCAPIL" reports
"Tidak Sesuai". -/
def exModeTie : List Event :=
  [mkEv 1 "1" 0 "BCA" "app" [("Nama", "Tidak Sesuai")],
   mkEv 2 "1" 1000 "BCA" "app" [("Nama", "Sesuai")],
   mkEv 3 "1" 2000 "DUKCAPIL" "app" [("Nama", "Tidak Sesuai")]]

/-- Two rows of one NIK exactly 5 seconds apart. -/
def exGap5 : List Event :=
  [mkEv 1 "A" 0 "BCA" "app" [], mkEv 2 "A" 5000 "BCA" "app" []]

/-- Two rows of one NIK 4.999 seconds apart. -/
def exGap4999 : List Event :=
  [mkEv 1 "A" 0 "BCA" "app" [], mkEv 2 "A" 4999 "BCA" "app" []]

/-- A single row of one NIK. -/
def exSingle : List Event := [mkEv 1 "A" 0 "BCA" "app" []]

/-- The scenario of spec section 8: DUKCAPIL, then BCA, then DB_CACHE for
one NIK. -/
def exScenario : List Event :=
  [mkEv 1 "1" 0 "DUKCAPIL" "app" [],
   mkEv 2 "1" 10000 "BCA" "app" [],
   mkEv 3 "1" 20000 "DB_CACHE" "app" []]

/-- Four rows: two in hour bucket 1 and two in hour bucket 3 (a tie for the
maximal hourly count). -/
def exPeakTie : List Event :=
  [mkEv 1 "1" 3600000 "BCA" "app" [], mkEv 2 "2" 3700000 "BCA" "app" [],
   mkEv 3 "3" 10800000 "BCA" "app" [], mkEv 4 "4" 10900000 "BCA" "app" []]

/-! ## Helper lemmas -/

/-- `uniqueFirst` has the same members as the original list. -/
theorem mem_uniqueFirst {α : Type} [DecidableEq α] {a : α} {l : List α} :
    a ∈ uniqueFirst l ↔ a ∈ l := by
  simp [uniqueFirst, List.mem_reverse, List.mem_dedup]

/-- `uniqueFirst` never lengthens a list. -/
theorem length_uniqueFirst_le {α : Type} [DecidableEq α] (l : List α) :
    (uniqueFirst l).length ≤ l.length := by
  have h := (List.dedup_sublist l.reverse).length_le
  simpa [uniqueFirst] using h

/-- `sortStrings` has the same members as the original list. -/
theorem mem_sortStrings {s : String} {l : List String} :
    s ∈ sortStrings l ↔ s ∈ l :=
  (List.perm_insertionSort strLE l).mem_iff

/-- Two sorted lists that are permutations of each other and whose members
satisfy antisymmetry are equal.  This is the uniqueness of sorted order,
with antisymmetry required only on the members (the relation used by the
source, "timestamp less or equal", is not globally antisymmetric). -/
theorem eq_of_perm_of_sorted_anti {α : Type} {r : α → α → Prop} :
    ∀ {l₁ l₂ : List α}, l₁.Perm l₂ → l₁.Sorted r → l₂.Sorted r →
      (∀ a ∈ l₁, ∀ b ∈ l₁, r a b → r b a → a = b) → l₁ = l₂ := by
  intro l₁
  induction l₁ with
  | nil => intro l₂ hp _ _ _; exact hp.nil_eq
  | cons a t₁ ih =>
    intro l₂ hp hs₁ hs₂ hanti
    cases l₂ with
    | nil => exact absurd hp.symm.nil_eq (by simp)
    | cons b t₂ =>
      have hab : a = b := by
        have haL : a ∈ b :: t₂ := hp.subset (List.mem_cons_self a t₁)
        have hbL : b ∈ a :: t₁ := hp.symm.subset (List.mem_cons_self b t₂)
        rcases List.mem_cons.mp haL with h | hat₂
        · exact h
        rcases List.mem_cons.mp hbL with h | hbt₁
        · exact h.symm
        have hrab : r a b := List.rel_of_sorted_cons hs₁ b hbt₁
        have hrba : r b a := List.rel_of_sorted_cons hs₂ a hat₂
        exact hanti a (List.mem_cons_self a t₁) b (List.mem_cons_of_mem a hbt₁) hrab hrba
      subst hab
      have hp' : t₁.Perm t₂ := hp.cons_inv
      have ht : t₁ = t₂ :=
        ih hp' hs₁.of_cons hs₂.of_cons
          (fun x hx y hy => hanti x (List.mem_cons_of_mem a hx) y (List.mem_cons_of_mem a hy))
      rw [ht]

/-- Distinct positions of a list with pairwise distinct timestamps carry
distinct timestamps, so equal timestamps force equal rows. -/
theorem ts_inj_of_nodup {l : List Event} (h : (l.map ts).Nodup) :
    ∀ a ∈ l, ∀ b ∈ l, ts a = ts b → a = b := by
  have hpw : l.Pairwise (fun a b => ts a ≠ ts b) := (List.pairwise_map).mp h
  intro a ha b hb hts
  by_contra hne
  exact hpw.forall (fun x y hxy => (hxy ∘ Eq.symm)) ha hb hne hts

/-- The timestamps of a permuted copy are `Nodup` iff those of the
original are. -/
theorem nodup_ts_of_perm {l₁ l₂ : List Event} (hp : l₁.Perm l₂)
    (h : (l₁.map ts).Nodup) : (l₂.map ts).Nodup :=
  ((hp.map ts).nodup_iff).mp h

/-- Sorting by timestamp is permutation-invariant on lists with pairwise
distinct timestamps. -/
theorem sortByTime_perm_eq {l₁ l₂ : List Event} (hp : l₁.Perm l₂)
    (hd : (l₁.map ts).Nodup) : sortByTime l₁ = sortByTime l₂ := by
  have hperm : (sortByTime l₁).Perm (sortByTime l₂) :=
    (List.perm_insertionSort timeLE l₁).trans
      (hp.trans (List.perm_insertionSort timeLE l₂).symm)
  have hmem : ∀ a ∈ sortByTime l₁, a ∈ l₁ :=
    fun a ha => (List.perm_insertionSort timeLE l₁).subset ha
  refine eq_of_perm_of_sorted_anti hperm
    (List.sorted_insertionSort timeLE l₁) (List.sorted_insertionSort timeLE l₂) ?_
  intro a ha b hb hab hba
  exact ts_inj_of_nodup hd a (hmem a ha) b (hmem b hb) (le_antisymm hab hba)

/-- Sorting by timestamp-then-id is permutation-invariant on lists with
pairwise distinct timestamps. -/
theorem sortByTimeId_perm_eq {l₁ l₂ : List Event} (hp : l₁.Perm l₂)
    (hd : (l₁.map ts).Nodup) : sortByTimeId l₁ = sortByTimeId l₂ := by
  have hperm : (sortByTimeId l₁).Perm (sortByTimeId l₂) :=
    (List.perm_insertionSort tidLE l₁).trans
      (hp.trans (List.perm_insertionSort tidLE l₂).symm)
  have hmem : ∀ a ∈ sortByTimeId l₁, a ∈ l₁ :=
    fun a ha => (List.perm_insertionSort tidLE l₁).subset ha
  refine eq_of_perm_of_sorted_anti hperm
    (List.sorted_insertionSort tidLE l₁) (List.sorted_insertionSort tidLE l₂) ?_
  intro a ha b hb hab hba
  have hts : ts a = ts b := by
    rcases hab with h1 | ⟨h1, _⟩
    · rcases hba with h2 | ⟨h2, _⟩
      · exact absurd h1 (lt_asymm h2)
      · exact h2.symm
    · exact h1
  exact ts_inj_of_nodup hd a (hmem a ha) b (hmem b hb) hts

/-- Filtering to one NIK commutes with permutation. -/
theorem perNik_perm {l₁ l₂ : List Event} (nik : String) (hp : l₁.Perm l₂) :
    (perNik l₁ nik).Perm (perNik l₂ nik) :=
  hp.filter (fun e : Event => e.nik == nik)

end EKYC

namespace EKYC

/-! ## Claim C9 — the classification scenario (spec-modelled) -/

/-- C9: for the events [(NIK 1, t=0, DUKCAPIL), (NIK 1, t=10s, BCA),
(NIK 1, t=20s, DB_CACHE)], the Sequence Classifier (modelled from the
spec, since it is absent from src/EKYC.py) assigns NIK 1 the class
CacheViaDukcapilThenBCA and the row-level count of that class is 3. -/
theorem C9_scenario :
    classifyFor exScenario "1" = CacheClass.cacheViaDukcapilThenBCA ∧
    rowCountFor exScenario CacheClass.cacheViaDukcapilThenBCA = 3 := by
  decide

/-! ## Claim C2 — empty filter result -/

/-- C2: with the non-empty allow-list ["BCA"] and the date range 5..9, the
filtered copy of `exDay0` is empty; every aggregation then degrades to the
empty/zero output, except the peak-hour selection (line 423) and the
worst-source selection (line 773), whose `idxmax`/`idxmin` raise
`ValueError` on the empty input — modelled by `none`.  This evaluates the
code at the claim's failing input: the claim says no component raises. -/
theorem C2_empty_filter_behavior :
    filterEvents exDay0 ["BCA"] 5 9 = [] ∧
    totalRequests (filterEvents exDay0 ["BCA"] 5 9) = 0 ∧
    degradationAll (filterEvents exDay0 ["BCA"] 5 9) = [] ∧
    rapidFireAll (filterEvents exDay0 ["BCA"] 5 9) = [] ∧
    crossAll (filterEvents exDay0 ["BCA"] 5 9) = [] ∧
    sourcePerf (filterEvents exDay0 ["BCA"] 5 9) = [] ∧
    hourlyList (filterEvents exDay0 ["BCA"] 5 9) = [] ∧
    hourlyAnomalies (filterEvents exDay0 ["BCA"] 5 9) = [] ∧
    peakHour (filterEvents exDay0 ["BCA"] 5 9) = none ∧
    worstSource (filterEvents exDay0 ["BCA"] 5 9) = none := by
  decide

/-! ## Claim C3 — unparseable timestamps -/

/-- C3 counterexample: `exNaT` holds two rows with source "BCA", one of
them with an unparseable timestamp.  The total request count of the
filtered data is 1 — the `NaT` row is not retained — whereas a count
retaining rows with irrelevant timestamps (modelled from the spec) would
report 2. -/
theorem C3_counterexample :
    totalRequests (filterEvents exNaT ["BCA"] 0 0) = 1 ∧
    retainedRequestCount exNaT ["BCA"] = 2 := by
  decide

/-- C3 amended: rows with unparseable timestamps are dropped by the filter
itself (the `NaT` date comparison of line 63 is false), so every analysis
and every count over the filtered data behaves exactly as if those rows
had been removed up front. -/
theorem C3_filter_drops_unparseable (evs : List Event) (allow : List String) (d1 d2 : Int) :
    filterEvents evs allow d1 d2 =
      filterEvents (evs.filter (fun e => e.createdAt.isSome)) allow d1 d2 := by
  unfold filterEvents
  rw [List.filter_filter]
  apply List.filter_congr
  intro e _
  cases h : e.createdAt <;> simp [inDateRange, h]

/-! ## Claim C4 — hourly buckets and dispersion -/

/-- C4 counterexample: for three events in hour buckets 0, 0 and 1, the
statistics of lines 433-435 run over 2 buckets, not 24, and the variance
they use (sample variance over present buckets, 1/2) differs from the
population variance over all 24 zero-padded buckets (37/192). -/
theorem C4_counterexample :
    (hourlyList exHours).length ≠ 24 ∧
    hourlyVariance exHours = some (Rat.divInt 1 2) ∧
    popVariance24 exHours = Rat.divInt 37 192 ∧
    hourlyVariance exHours ≠ some (popVariance24 exHours) := by
  decide

/-- C4 amended: the hourly table contains exactly the hour buckets with at
least one event, with their correct counts (hours with no events are
omitted, not zero-padded), and the dispersion of the threshold is the
sample (ddof = 1) standard deviation of those present buckets — in
particular, with fewer than two distinct hours the standard deviation is
NaN and no bucket is flagged. -/
theorem C4_present_buckets :
    (∀ evs h c, (h, c) ∈ hourlyList evs ↔ h < 24 ∧ c = hourCount evs h ∧ 0 < c) ∧
    (∀ evs : List Event, (hourlyList evs).length < 2 → hourlyAnomalies evs = []) := by
  constructor
  · intro evs h c
    unfold hourlyList
    simp only [List.mem_filterMap, List.mem_range]
    constructor
    · rintro ⟨a, ha, hfa⟩
      by_cases h0 : hourCount evs a = 0
      · rw [if_pos h0] at hfa; cases hfa
      · rw [if_neg h0] at hfa
        obtain ⟨rfl, rfl⟩ := Prod.mk.injEq .. ▸ Option.some.inj hfa
        exact ⟨ha, rfl, Nat.pos_of_ne_zero h0⟩
    · rintro ⟨hh, rfl, hc⟩
      exact ⟨h, hh, by rw [if_neg (Nat.pos_iff_ne_zero.mp hc)]⟩
  · intro evs hlen
    unfold hourlyAnomalies
    apply List.filter_eq_nil_iff.mpr
    intro p _
    unfold bucketAnomalous
    have hlc : (((hourlyList evs).map (fun p => (p.2 : Int))).length : Int) < 2 := by
      rw [List.length_map]
      exact_mod_cast hlen
    simp only [hlc, if_pos]
    simp

/-- C4 witness: a single present hour bucket yields no anomaly flag. -/
theorem C4_witness : hourlyAnomalies exSingle = [] :=
  C4_present_buckets.2 exSingle (by decide)

/-! ## Claim C1 — permutation invariance of the order-sensitive analyses -/

/-- C1 counterexample: `exTieA` and `exTieB` are permutations of the same
two-row event set whose rows share one timestamp, yet degradation
detection reports different results for NIK "1" (a finding for one input
order, none for the other).  The claim's premise — that every
order-sensitive step breaks timestamp ties by event id — is false of the
code: lines 530 and 652 sort by `CreatedDate` only, so tied rows keep
their input order. -/
theorem C1_counterexample :
    exTieA.Perm exTieB ∧ degradationFor exTieA "1" ≠ degradationFor exTieB "1" := by
  constructor
  · decide
  · decide

/-- C1 amended: when every NIK's rows carry pairwise distinct timestamps,
re-running degradation detection, rapid-fire detection and the
(spec-modelled) per-NIK classification on any permutation of the event set
yields identical per-NIK results; with tied timestamps the timestamp-only
sort of the code leaves the order of the tied rows to the input order, and
the results may differ. -/
theorem C1_perm_determinism (l₁ l₂ : List Event) (nik : String) (hp : l₁.Perm l₂)
    (hd : ((perNik l₁ nik).map ts).Nodup) :
    degradationFor l₁ nik = degradationFor l₂ nik ∧
    rapidFireFor l₁ nik = rapidFireFor l₂ nik ∧
    classifyFor l₁ nik = classifyFor l₂ nik := by
  have hpf := perNik_perm nik hp
  have hsort : perNikSorted l₁ nik = perNikSorted l₂ nik :=
    sortByTime_perm_eq hpf hd
  have hsortId : sortByTimeId (perNik l₁ nik) = sortByTimeId (perNik l₂ nik) :=
    sortByTimeId_perm_eq hpf hd
  refine ⟨?_, ?_, ?_⟩
  · unfold degradationFor
    rw [hsort]
  · unfold rapidFireFor
    rw [hsort]
  · unfold classifyFor seqOf
    rw [hsortId]

/-- C1 witness: a two-row set with distinct timestamps and its swap. -/
theorem C1_witness :
    degradationFor exDistinctA "1" = degradationFor exDistinctB "1" ∧
    rapidFireFor exDistinctA "1" = rapidFireFor exDistinctB "1" ∧
    classifyFor exDistinctA "1" = classifyFor exDistinctB "1" :=
  C1_perm_determinism exDistinctA exDistinctB "1" (by decide) (by decide)

/-! ## Claim C7 — rapid-fire boundary -/

/-- C7: the rapid-fire scan flags exactly the rows that follow another row
of the same NIK in the chronological order, with a gap strictly below the
threshold — the first conjunct characterises the flagged rows as the
successors of the adjacent pairs of the sorted per-NIK sequence (so a
NIK's first row, which has no predecessor gap, is never flagged); the
remaining conjuncts check the boundary: a 5.000-second gap is not flagged,
a 4.999-second gap is, and a single row yields nothing. -/
theorem C7_rapid_fire_boundary :
    (∀ evs nik, rapidFireFor evs nik =
      ((perNikSorted evs nik).zip (perNikSorted evs nik).tail).filterMap
        (fun q => if ts q.2 - ts q.1 < rapidThresholdMs
                  then some (q.2, ts q.2 - ts q.1) else none)) ∧
    rapidFireFor exGap5 "A" = [] ∧
    (rapidFireFor exGap4999 "A").map (fun p => (p.1.id, p.2)) = [(2, 4999)] ∧
    rapidFireFor exSingle "A" = [] := by
  refine ⟨?_, by decide, by decide, by decide⟩
  intro evs nik
  unfold rapidFireFor
  cases hg : perNikSorted evs nik with
  | nil => rfl
  | cons e r => exact List.filterMap_map _ _ _

/-! ## Claim C5 — degradation requires adjacency -/

/-- The length of a `filterMap` whose function is an if-then-some is the
count of elements passing the test. -/
theorem length_filterMap_ite {α β : Type} (p : α → Bool) (F : α → β) (l : List α) :
    (l.filterMap (fun x => if p x then some (F x) else none)).length = l.countP p := by
  induction l with
  | nil => rfl
  | cons a t ih =>
    rw [List.filterMap_cons, List.countP_cons]
    by_cases h : p a
    · simp [h, ih]
    · simp [h, ih]

/-- Filtering distributes over `flatten`. -/
theorem filter_flatten {α : Type} (p : α → Bool) (L : List (List α)) :
    L.flatten.filter p = (L.map (List.filter p)).flatten := by
  induction L with
  | nil => rfl
  | cons a t ih => simp [List.filter_append, ih]

/-- Every record produced by the column scan carries that column's name. -/
theorem degradationPairs_field {nik col : String} {tot : Nat} {g : List Event} :
    ∀ d ∈ degradationPairs nik tot col g, d.field = col := by
  intro d hd
  obtain ⟨q, _, hq⟩ := List.mem_filterMap.mp hd
  by_cases h : (getStatus q.1 col == "Sesuai" && getStatus q.2 col == "Tidak Sesuai") = true
  · rw [if_pos h] at hq
    cases Option.some.inj hq
    rfl
  · rw [if_neg h] at hq
    cases hq

/-- Summing a function over a duplicate-free list containing `x` whose
value vanishes off `x` gives the value at `x`. -/
theorem sum_map_single {β : Type} [DecidableEq β] {cols : List β} {x : β} (f : β → Nat)
    (hnd : cols.Nodup) (hx : x ∈ cols) (hz : ∀ c ∈ cols, c ≠ x → f c = 0) :
    (cols.map f).sum = f x := by
  induction cols with
  | nil => cases hx
  | cons a t ih =>
    have hnd' := List.nodup_cons.mp hnd
    rcases List.mem_cons.mp hx with rfl | hx2
    · have hzt : (t.map f).sum = 0 := by
        apply List.sum_eq_zero
        intro y hy
        obtain ⟨c, hc, rfl⟩ := List.mem_map.mp hy
        refine hz c (List.mem_cons_of_mem _ hc) ?_
        rintro rfl
        exact hnd'.1 hc
      simp [hzt]
    · have hfa : f a = 0 := by
        refine hz a (List.mem_cons_self _ _) ?_
        rintro rfl
        exact hnd'.1 hx2
      have ht := ih hnd'.2 hx2
        (fun c hc hne => hz c (List.mem_cons_of_mem _ hc) hne)
      simp [hfa, ht]

/-- The tracked columns are pairwise distinct. -/
theorem statusCols_nodup : statusCols.Nodup := by decide

/-- For a tracked column, the degradation records for that column
correspond one-to-one to the adjacent Sesuai→Tidak-Sesuai pairs of the
chronologically ordered status sequence. -/
theorem filter_degradation_field (nik field : String) (g : List Event)
    (hf : field ∈ statusCols) :
    ((degradationOfSorted nik g).filter (fun d => d.field == field)).length =
      countAdjSTS (g.map (fun e => getStatus e field)) := by
  have hRHS : countAdjSTS (g.map (fun e => getStatus e field)) =
      (g.zip g.tail).countP
        (fun q => getStatus q.1 field == "Sesuai" && getStatus q.2 field == "Tidak Sesuai") := by
    unfold countAdjSTS
    rw [show (g.map (fun e => getStatus e field)).tail
          = g.tail.map (fun e => getStatus e field) by simp [List.map_tail]]
    rw [List.zip_map]
    rw [List.countP_map]
    rfl
  rw [hRHS]
  unfold degradationOfSorted
  by_cases hlen : 1 < g.length
  · rw [if_pos hlen, filter_flatten, List.map_map, List.length_flatten, List.map_map]
    have hz : ∀ c ∈ statusCols, c ≠ field →
        ((degradationPairs nik g.length c g).filter (fun d => d.field == field)).length = 0 := by
      intro c _ hne
      have hnil : (degradationPairs nik g.length c g).filter (fun d => d.field == field) = [] := by
        apply List.filter_eq_nil_iff.mpr
        intro d hd
        have hfld := degradationPairs_field d hd
        simp [hfld, hne]
      rw [hnil]
      rfl
    have hsum := sum_map_single
      (f := fun col =>
        ((degradationPairs nik g.length col g).filter (fun d => d.field == field)).length)
      statusCols_nodup hf hz
    show (statusCols.map (fun col =>
        ((degradationPairs nik g.length col g).filter (fun d => d.field == field)).length)).sum
      = (g.zip g.tail).countP
          (fun q => getStatus q.1 field == "Sesuai" && getStatus q.2 field == "Tidak Sesuai")
    rw [hsum]
    show ((degradationPairs nik g.length field g).filter (fun d => d.field == field)).length
      = (g.zip g.tail).countP
          (fun q => getStatus q.1 field == "Sesuai" && getStatus q.2 field == "Tidak Sesuai")
    have hall : (degradationPairs nik g.length field g).filter (fun d => d.field == field)
        = degradationPairs nik g.length field g := by
      apply List.filter_eq_self.mpr
      intro d hd
      simp [degradationPairs_field d hd]
    rw [hall]
    exact length_filterMap_ite _ _ _
  · rw [if_neg hlen]
    have hnil : g.zip g.tail = [] := by
      cases g with
      | nil => rfl
      | cons e r =>
        cases r with
        | nil => rfl
        | cons f s =>
          exfalso
          apply hlen
          simp [List.length_cons]
    rw [hnil]
    rfl

/-- C5: for every tracked field, the number of degradation findings of a
NIK equals the number of adjacent pairs of its chronologically ordered
statuses where "Sesuai" is immediately followed by "Tidak Sesuai"; in
particular the sequence [Sesuai, Tidak Sesuai, Sesuai] yields exactly one
finding — the first transition, at 0ms→10000ms — and none for the upward
transition back to "Sesuai". -/
theorem C5_degradation_adjacency :
    (∀ evs nik field, field ∈ statusCols →
      ((degradationFor evs nik).filter (fun d => d.field == field)).length =
        countAdjSTS ((perNikSorted evs nik).map (fun e => getStatus e field))) ∧
    (degradationFor exSTS "1").map (fun d => (d.field, d.tFirst, d.tSecond)) =
      [("Nama", 0, 10000)] := by
  refine ⟨?_, by decide⟩
  intro evs nik field hf
  exact filter_degradation_field nik field (perNikSorted evs nik) hf

/-- C5 witness: the general count identity at the [Sesuai, Tidak Sesuai,
Sesuai] scenario. -/
theorem C5_witness :
    ((degradationFor exSTS "1").filter (fun d => d.field == "Nama")).length =
      countAdjSTS ((perNikSorted exSTS "1").map (fun e => getStatus e "Nama")) :=
  C5_degradation_adjacency.1 exSTS "1" "Nama" (by decide)

/-! ## Order facts for the code-point comparison -/

/-- The code-point order is irreflexive. -/
theorem chainLtb_irrefl : ∀ l : List Char, chainLtb l l = false := by
  intro l
  induction l with
  | nil => rfl
  | cons a t ih => simp [chainLtb, ih]

/-- The code-point order is transitive. -/
theorem chainLtb_trans : ∀ (a b c : List Char),
    chainLtb a b = true → chainLtb b c = true → chainLtb a c = true := by
  intro a
  induction a with
  | nil =>
    intro b c hab hbc
    cases b with
    | nil => cases hab
    | cons y ys =>
      cases c with
      | nil => cases hbc
      | cons z zs => rfl
  | cons x xs ih =>
    intro b c hab hbc
    cases b with
    | nil => cases hab
    | cons y ys =>
      cases c with
      | nil => cases hbc
      | cons z zs =>
        by_cases hxy : x.toNat < y.toNat
        · by_cases hyz : y.toNat < z.toNat
          · have hxz : x.toNat < z.toNat := lt_trans hxy hyz
            simp [chainLtb, hxz]
          · by_cases hzy : z.toNat < y.toNat
            · simp [chainLtb, hyz, hzy] at hbc
            · have heq : y.toNat = z.toNat := le_antisymm (not_lt.mp hzy) (not_lt.mp hyz)
              have hxz : x.toNat < z.toNat := heq ▸ hxy
              simp [chainLtb, hxz]
        · by_cases hyx : y.toNat < x.toNat
          · simp [chainLtb, hxy, hyx] at hab
          · have hxyeq : x.toNat = y.toNat := le_antisymm (not_lt.mp hyx) (not_lt.mp hxy)
            have hab' : chainLtb xs ys = true := by
              simpa [chainLtb, hxy, hyx] using hab
            by_cases hyz : y.toNat < z.toNat
            · have hxz : x.toNat < z.toNat := hxyeq ▸ hyz
              simp [chainLtb, hxz]
            · by_cases hzy : z.toNat < y.toNat
              · simp [chainLtb, hyz, hzy] at hbc
              · have hyzeq : y.toNat = z.toNat := le_antisymm (not_lt.mp hzy) (not_lt.mp hyz)
                have hbc' : chainLtb ys zs = true := by
                  simpa [chainLtb, hyz, hzy] using hbc
                have hxz : ¬ x.toNat < z.toNat := by
                  rw [hxyeq, hyzeq]
                  exact lt_irrefl _
                have hzx : ¬ z.toNat < x.toNat := by
                  rw [hxyeq, hyzeq]
                  exact lt_irrefl _
                simp [chainLtb, hxz, hzx]
                exact ih ys zs hab' hbc'

/-- Two char lists neither of which precedes the other are equal. -/
theorem chainLtb_conn : ∀ (a b : List Char),
    chainLtb a b = false → chainLtb b a = false → a = b := by
  intro a
  induction a with
  | nil =>
    intro b hab _
    cases b with
    | nil => rfl
    | cons y ys => cases hab
  | cons x xs ih =>
    intro b hab hba
    cases b with
    | nil => cases hba
    | cons y ys =>
      by_cases hxy : x.toNat < y.toNat
      · simp [chainLtb, hxy] at hab
      · by_cases hyx : y.toNat < x.toNat
        · simp [chainLtb, hyx] at hba
        · have hxs : chainLtb xs ys = false := by
            simpa [chainLtb, hxy, hyx] using hab
          have hys : chainLtb ys xs = false := by
            simpa [chainLtb, hyx, hxy] using hba
          have hnat : x.toNat = y.toNat := le_antisymm (not_lt.mp hyx) (not_lt.mp hxy)
          have hchar : x = y := Char.eq_of_val_eq (UInt32.ext hnat)
          rw [hchar, ih ys hxs hys]

/-- Irreflexivity at the string level. -/
theorem strLtb_irrefl (a : String) : strLtb a a = false := chainLtb_irrefl a.data

/-- Transitivity at the string level. -/
theorem strLtb_trans {a b c : String} (hab : strLtb a b = true) (hbc : strLtb b c = true) :
    strLtb a c = true := chainLtb_trans a.data b.data c.data hab hbc

/-- Connectedness at the string level. -/
theorem strLtb_conn {a b : String} (hab : strLtb a b = false) (hba : strLtb b a = false) :
    a = b := by
  have hd : a.data = b.data := chainLtb_conn a.data b.data hab hba
  cases a
  cases b
  exact congrArg String.mk hd

/-! ## The minimum and the modal values -/

/-- The fold inside `minStr` returns a member no member strictly
precedes. -/
theorem foldl_minStr_spec :
    ∀ (r : List String) (m : String),
      (r.foldl (fun m w => if strLtb w m then w else m) m ∈ m :: r) ∧
      (∀ v ∈ m :: r, strLtb v (r.foldl (fun m w => if strLtb w m then w else m) m) = false) := by
  intro r
  induction r with
  | nil =>
    intro m
    refine ⟨List.mem_singleton.mpr rfl, ?_⟩
    intro v hv
    rw [List.mem_singleton.mp hv]
    exact strLtb_irrefl m
  | cons w t ih =>
    intro m
    rw [List.foldl_cons]
    by_cases hwm : strLtb w m
    · rw [if_pos hwm]
      obtain ⟨hm, hmin⟩ := ih w
      refine ⟨List.mem_cons_of_mem m hm, ?_⟩
      intro v hv
      rcases List.mem_cons.mp hv with rfl | hv2
      · by_cases hres : strLtb v (t.foldl (fun m w => if strLtb w m then w else m) w)
        · exfalso
          have hw := hmin w (List.mem_cons_self w t)
          have := strLtb_trans hwm hres
          rw [this] at hw
          cases hw
        · exact eq_false_of_ne_true hres
      · exact hmin v hv2
    · rw [if_neg hwm]
      obtain ⟨hm, hmin⟩ := ih m
      refine ⟨?_, ?_⟩
      · rcases List.mem_cons.mp hm with h | h
        · rw [h]
          exact List.mem_cons_self _ _
        · exact List.mem_cons_of_mem m (List.mem_cons_of_mem w h)
      · intro v hv
        rcases List.mem_cons.mp hv with rfl | hv2
        · exact hmin _ (List.mem_cons_self _ _)
        · rcases List.mem_cons.mp hv2 with rfl | hv3
          · by_cases hres : strLtb v (t.foldl (fun m w => if strLtb w m then w else m) m)
            · exfalso
              have hmres := hmin m (List.mem_cons_self m t)
              have hwmF : strLtb v m = false := eq_false_of_ne_true hwm
              by_cases hmv : strLtb m v
              · have h2 := strLtb_trans hmv hres
                rw [hmres] at h2
                cases h2
              · have heq : m = v := strLtb_conn (eq_false_of_ne_true hmv) hwmF
                subst heq
                rw [hres] at hmres
                cases hmres
            · exact eq_false_of_ne_true hres
          · exact hmin v (List.mem_cons_of_mem m hv3)

/-- `minStr` of a nonempty list is a member. -/
theorem minStr_mem {l : List String} (hl : l ≠ []) : minStr l ∈ l := by
  cases l with
  | nil => exact absurd rfl hl
  | cons v r => exact (foldl_minStr_spec r v).1

/-- No member strictly precedes `minStr`. -/
theorem minStr_min {l : List String} : ∀ v ∈ l, strLtb v (minStr l) = false := by
  cases l with
  | nil => intro v hv; cases hv
  | cons w r => exact (foldl_minStr_spec r w).2

/-- Every member of a Nat list is bounded by the folded maximum. -/
theorem le_foldr_max : ∀ (L : List Nat) (n : Nat), n ∈ L → n ≤ L.foldr max 0 := by
  intro L
  induction L with
  | nil => intro n h; cases h
  | cons a t ih =>
    intro n h
    rcases List.mem_cons.mp h with rfl | ht
    · exact le_max_left _ _
    · exact le_trans (ih n ht) (le_max_right _ _)

/-- The folded maximum of a Nat list is a member or zero. -/
theorem foldr_max_mem : ∀ L : List Nat, L.foldr max 0 ∈ L ∨ L.foldr max 0 = 0 := by
  intro L
  induction L with
  | nil => exact Or.inr rfl
  | cons a t ih =>
    rcases max_choice a (t.foldr max 0) with h | h
    · left
      rw [List.foldr_cons, h]
      exact List.mem_cons_self _ _
    · rcases ih with h2 | h2
      · left
        rw [List.foldr_cons, h]
        exact List.mem_cons_of_mem _ h2
      · right
        rw [List.foldr_cons, h, h2]

/-- Every value's frequency is bounded by `maxFreq`. -/
theorem count_le_maxFreq {xs : List String} {v : String} (hv : v ∈ xs) :
    xs.count v ≤ maxFreq xs :=
  le_foldr_max _ _ (List.mem_map_of_mem _ (mem_uniqueFirst.mpr hv))

/-- On a nonempty list the maximal frequency is attained. -/
theorem maxFreq_attained {xs : List String} (hxs : xs ≠ []) :
    ∃ v ∈ uniqueFirst xs, xs.count v = maxFreq xs := by
  rcases foldr_max_mem ((uniqueFirst xs).map (fun v => xs.count v)) with h | h
  · obtain ⟨v, hv, hc⟩ := List.mem_map.mp h
    exact ⟨v, hv, hc⟩
  · exfalso
    obtain ⟨a, ha⟩ := List.exists_mem_of_ne_nil xs hxs
    have h1 : xs.count a ≠ 0 := fun h0 => (List.count_eq_zero.mp h0) ha
    have h2 := count_le_maxFreq ha
    have h3 : maxFreq xs = 0 := h
    omega

/-- Membership in the modal set. -/
theorem mem_modalSet {xs : List String} {v : String} :
    v ∈ modalSet xs ↔ v ∈ uniqueFirst xs ∧ xs.count v = maxFreq xs := by
  unfold modalSet
  rw [List.mem_filter]
  constructor
  · rintro ⟨h1, h2⟩
    exact ⟨h1, by simpa using h2⟩
  · rintro ⟨h1, h2⟩
    exact ⟨h1, by simpa using h2⟩

/-- The modal set of a nonempty list is nonempty. -/
theorem modalSet_ne_nil {xs : List String} (hxs : xs ≠ []) : modalSet xs ≠ [] := by
  obtain ⟨v, hv, hc⟩ := maxFreq_attained hxs
  exact List.ne_nil_of_mem (mem_modalSet.mpr ⟨hv, hc⟩)

end EKYC

namespace EKYC

/-! ## Claim C6 — cross-source modal values -/

/-- C6 counterexample: in `exModeTie` source "BCA" reports
["Tidak Sesuai", "Sesuai"] for "Nama" — a frequency tie.  The code's
`mode()[0]` attributes "Sesuai" (the smallest value in sort order), not
the first-seen "Tidak Sesuai", and consequently records a disagreement
that the claim's first-seen rule would not record. -/
theorem C6_counterexample :
    crossFor exModeTie "1" ≠ [] ∧
    crossForSpec exModeTie "1" = [] ∧
    (crossFor exModeTie "1").map (fun f => f.values) = [["Sesuai", "Tidak Sesuai"]] ∧
    modeVal ["Tidak Sesuai", "Sesuai"] = "Sesuai" ∧
    modeFirstSeen ["Tidak Sesuai", "Sesuai"] = "Tidak Sesuai" := by
  refine ⟨by decide, by decide, by decide, by decide, by decide⟩

/-- C6 amended: the status attributed to a source is a modal (maximal
frequency) status of what that source reported, and on frequency ties the
smallest status in code-point sort order wins (pandas `mode()` sorts the
modal values and the code takes entry 0) — not the first-seen one; a
disagreement is recorded for a tracked field exactly when the NIK has more
than one distinct source and the per-source modal values take more than
one distinct value. -/
theorem C6_modal_smallest :
    (∀ xs : List String, xs ≠ [] →
      modeVal xs ∈ xs ∧
      xs.count (modeVal xs) = maxFreq xs ∧
      (∀ v ∈ xs, xs.count v ≤ maxFreq xs) ∧
      (∀ v ∈ xs, xs.count v = maxFreq xs → strLtb v (modeVal xs) = false)) ∧
    (∀ evs nik field,
      (∃ f ∈ crossFor evs nik, f.field = field) ↔
        (1 < (sourcesOf (perNik evs nik)).length ∧ field ∈ statusCols ∧
         1 < (uniqueFirst (crossValues (perNik evs nik) field)).length)) := by
  constructor
  · intro xs hxs
    have hne : modalSet xs ≠ [] := modalSet_ne_nil hxs
    have hmem : modeVal xs ∈ modalSet xs := minStr_mem hne
    have hchar := mem_modalSet.mp hmem
    refine ⟨mem_uniqueFirst.mp hchar.1, hchar.2, fun v hv => count_le_maxFreq hv, ?_⟩
    intro v hv hcnt
    exact minStr_min v (mem_modalSet.mpr ⟨mem_uniqueFirst.mpr hv, hcnt⟩)
  · intro evs nik field
    unfold crossFor
    by_cases hsrc : 1 < (sourcesOf (perNik evs nik)).length
    · rw [if_pos hsrc]
      constructor
      · rintro ⟨f, hf, hfield⟩
        obtain ⟨col, hcol, hcoleq⟩ := List.mem_filterMap.mp hf
        by_cases hinner : 1 < (uniqueFirst (crossValues (perNik evs nik) col)).length
        · rw [if_pos hinner] at hcoleq
          obtain rfl := Option.some.inj hcoleq
          have hcf : col = field := hfield
          subst hcf
          exact ⟨hsrc, hcol, hinner⟩
        · rw [if_neg hinner] at hcoleq
          cases hcoleq
      · rintro ⟨_, hcol, hinner⟩
        refine ⟨{ nik := nik, field := field,
                  sources := sortStrings (sourcesOf (perNik evs nik)),
                  values := crossValues (perNik evs nik) field,
                  hitCount := (perNik evs nik).length }, ?_, rfl⟩
        apply List.mem_filterMap.mpr
        exact ⟨field, hcol, by rw [if_pos hinner]⟩
    · rw [if_neg hsrc]
      constructor
      · rintro ⟨f, hf, _⟩
        cases hf
      · rintro ⟨h, _, _⟩
        exact absurd h hsrc

/-- C6 witness: the modal characterisation at a two-value tie. -/
theorem C6_witness :
    modeVal ["Tidak Sesuai", "Sesuai"] ∈ ["Tidak Sesuai", "Sesuai"] :=
  (C6_modal_smallest.1 ["Tidak Sesuai", "Sesuai"] (by decide)).1

/-! ## Claim C8 — cost efficiency bounds -/

/-- C8: every row of the `source_perf` table has
`0 < cost_efficiency <= 1` and `duplicate_rate + cost_efficiency = 1`
exactly, and a source with no rows in the filtered data has no row in the
table (so no division by zero can occur). -/
theorem C8_cost_efficiency_bounds :
    (∀ evs : List Event, ∀ p ∈ sourcePerf evs,
      0 < p.costEfficiency ∧ p.costEfficiency ≤ 1 ∧
      p.duplicateRate + p.costEfficiency = 1) ∧
    (∀ (evs : List Event) (s : String),
      evs.filter (fun e => e.sourceResult == s) = [] →
      ∀ p ∈ sourcePerf evs, p.source ≠ s) := by
  constructor
  · intro evs p hp
    obtain ⟨s, hs, rfl⟩ := List.mem_map.mp hp
    obtain ⟨e, he, hse⟩ := List.mem_map.mp (mem_uniqueFirst.mp (mem_sortStrings.mp hs))
    have heg : e ∈ evs.filter (fun e => e.sourceResult == s) :=
      List.mem_filter.mpr ⟨he, by simp [hse]⟩
    have htot : 0 < (evs.filter (fun e => e.sourceResult == s)).length :=
      List.length_pos.mpr (List.ne_nil_of_mem heg)
    have hnik : e.nik ∈ (evs.filter (fun e => e.sourceResult == s)).map (fun e => e.nik) :=
      List.mem_map_of_mem _ heg
    have huniq : 0 <
        (uniqueFirst ((evs.filter (fun e => e.sourceResult == s)).map (fun e => e.nik))).length :=
      List.length_pos.mpr (List.ne_nil_of_mem (mem_uniqueFirst.mpr hnik))
    have hle :
        (uniqueFirst ((evs.filter (fun e => e.sourceResult == s)).map (fun e => e.nik))).length ≤
          (evs.filter (fun e => e.sourceResult == s)).length := by
      have h := length_uniqueFirst_le
        ((evs.filter (fun e => e.sourceResult == s)).map (fun e => e.nik))
      simpa using h
    set u := (uniqueFirst ((evs.filter (fun e => e.sourceResult == s)).map
      (fun e => e.nik))).length with hu
    set t := (evs.filter (fun e => e.sourceResult == s)).length with ht
    have hce : (mkSourcePerf evs s).costEfficiency = Rat.divInt u t := rfl
    have hdr : (mkSourcePerf evs s).duplicateRate = 1 - Rat.divInt u t := rfl
    have hpos : (0 : ℚ) < Rat.divInt u t := by
      rw [Rat.divInt_eq_div]
      apply div_pos
      · exact_mod_cast huniq
      · exact_mod_cast htot
    have hone : Rat.divInt u t ≤ 1 := by
      rw [Rat.divInt_eq_div]
      rw [div_le_one (by exact_mod_cast htot)]
      exact_mod_cast hle
    refine ⟨?_, ?_, ?_⟩
    · rw [hce]
      exact hpos
    · rw [hce]
      exact hone
    · rw [hce, hdr]
      exact sub_add_cancel 1 (Rat.divInt u t)
  · intro evs s hempty p hp
    obtain ⟨x, hx, rfl⟩ := List.mem_map.mp hp
    intro heq
    have hxs : x = s := heq
    subst hxs
    obtain ⟨e, he, hse⟩ := List.mem_map.mp (mem_uniqueFirst.mp (mem_sortStrings.mp hx))
    have heg : e ∈ evs.filter (fun e => e.sourceResult == x) :=
      List.mem_filter.mpr ⟨he, by simp [hse]⟩
    rw [hempty] at heg
    cases heg

/-- C8 witness: the bounds at the one-row table of `exSingle`. -/
theorem C8_witness :
    0 < (mkSourcePerf exSingle "BCA").costEfficiency ∧
    (mkSourcePerf exSingle "BCA").costEfficiency ≤ 1 ∧
    (mkSourcePerf exSingle "BCA").duplicateRate +
      (mkSourcePerf exSingle "BCA").costEfficiency = 1 :=
  C8_cost_efficiency_bounds.1 exSingle (mkSourcePerf exSingle "BCA")
    (List.mem_map_of_mem (fun s => mkSourcePerf exSingle s) (by decide))

/-! ## Claim C10 — peak-hour ties -/

/-- The running-maximum fold of `idxmax` returns a member with maximal
second component, and among the rows attaining the maximum it returns the
one with the least first component (the scan replaces the current maximum
only on a strict increase, and the rows are sorted by first component). -/
theorem foldl_peak_spec :
    ∀ (r : List (Nat × Nat)) (x : Nat × Nat),
      (x :: r).Pairwise (fun p q => p.1 < q.1) →
      ((r.foldl (fun m p => if m.2 < p.2 then p else m) x) ∈ x :: r ∧
       (∀ p ∈ x :: r, p.2 ≤ (r.foldl (fun m p => if m.2 < p.2 then p else m) x).2) ∧
       (∀ p ∈ x :: r, p.2 = (r.foldl (fun m p => if m.2 < p.2 then p else m) x).2 →
          (r.foldl (fun m p => if m.2 < p.2 then p else m) x).1 ≤ p.1)) := by
  intro r
  induction r with
  | nil =>
    intro x _
    refine ⟨List.mem_singleton.mpr rfl, ?_, ?_⟩
    · intro p hp
      rw [List.mem_singleton.mp hp]
      exact le_refl _
    · intro p hp _
      rw [List.mem_singleton.mp hp]
      exact le_refl _
  | cons y t ih =>
    intro x hpw
    rw [List.foldl_cons]
    by_cases hxy : x.2 < y.2
    · rw [if_pos hxy]
      have hpw2 : (y :: t).Pairwise (fun p q => p.1 < q.1) := hpw.of_cons
      obtain ⟨hm, hb, hfirst⟩ := ih y hpw2
      refine ⟨List.mem_cons_of_mem x hm, ?_, ?_⟩
      · intro p hp
        rcases List.mem_cons.mp hp with rfl | hp2
        · exact le_trans (le_of_lt hxy) (hb y (List.mem_cons_self y t))
        · exact hb p hp2
      · intro p hp heq
        rcases List.mem_cons.mp hp with rfl | hp2
        · exfalso
          have hyb := hb y (List.mem_cons_self y t)
          omega
        · exact hfirst p hp2 heq
    · rw [if_neg hxy]
      have h1 := List.pairwise_cons.mp hpw
      have h2 := List.pairwise_cons.mp h1.2
      have hxt : (x :: t).Pairwise (fun p q => p.1 < q.1) :=
        List.pairwise_cons.mpr ⟨fun b hb => h1.1 b (List.mem_cons_of_mem y hb), h2.2⟩
      obtain ⟨hm, hb, hfirst⟩ := ih x hxt
      have hxltY : x.1 < y.1 := h1.1 y (List.mem_cons_self y t)
      refine ⟨?_, ?_, ?_⟩
      · rcases List.mem_cons.mp hm with h | h
        · rw [h]
          exact List.mem_cons_self _ _
        · exact List.mem_cons_of_mem x (List.mem_cons_of_mem y h)
      · intro p hp
        rcases List.mem_cons.mp hp with rfl | hp2
        · exact hb p (List.mem_cons_self p t)
        rcases List.mem_cons.mp hp2 with rfl | hp3
        · exact le_trans (not_lt.mp hxy) (hb x (List.mem_cons_self x t))
        · exact hb p (List.mem_cons_of_mem x hp3)
      · intro p hp heq
        rcases List.mem_cons.mp hp with rfl | hp2
        · exact hfirst p (List.mem_cons_self p t) heq
        rcases List.mem_cons.mp hp2 with rfl | hp3
        · have hxb := hb x (List.mem_cons_self x t)
          have hyx : p.2 ≤ x.2 := not_lt.mp hxy
          have hx2 : x.2 = (t.foldl (fun m p => if m.2 < p.2 then p else m) x).2 := by omega
          have hres := hfirst x (List.mem_cons_self x t) hx2
          omega
        · exact hfirst p (List.mem_cons_of_mem x hp3) heq

/-- The hours of the hourly table form a sublist of 0..23. -/
theorem hourly_fst_sublist (evs : List Event) :
    ((hourlyList evs).map Prod.fst).Sublist (List.range 24) := by
  unfold hourlyList
  generalize List.range 24 = l
  induction l with
  | nil => simp
  | cons a u ih =>
    by_cases h0 : hourCount evs a = 0
    · rw [List.filterMap_cons_none (by rw [if_pos h0])]
      exact ih.cons a
    · rw [List.filterMap_cons_some (by rw [if_neg h0]), List.map_cons]
      exact ih.cons₂ a

/-- The hourly table is strictly increasing in the hour component
(`groupby` enumerates its keys in ascending order). -/
theorem hourly_pairwise (evs : List Event) :
    (hourlyList evs).Pairwise (fun p q => p.1 < q.1) := by
  have h1 : ((hourlyList evs).map Prod.fst).Pairwise (fun a b : Nat => a < b) :=
    List.Pairwise.sublist (hourly_fst_sublist evs) (List.pairwise_lt_range 24)
  exact (List.pairwise_map).mp h1

/-- C10: when `peakHour` returns a row, that row is a present hour bucket
with the maximal count, and among the buckets attaining that count it has
the smallest hour (`idxmax` takes the first maximum of the
ascending-by-hour table). -/
theorem C10_peak_first_hour (evs : List Event) (hc : Nat × Nat)
    (hpk : peakHour evs = some hc) :
    hc ∈ hourlyList evs ∧ (∀ p ∈ hourlyList evs, p.2 ≤ hc.2) ∧
    (∀ p ∈ hourlyList evs, p.2 = hc.2 → hc.1 ≤ p.1) := by
  unfold peakHour at hpk
  rcases hl : hourlyList evs with _ | ⟨x, r⟩
  · rw [hl] at hpk
    cases hpk
  · rw [hl] at hpk
    have hcfold := Option.some.inj hpk
    have hpw := hourly_pairwise evs
    rw [hl] at hpw
    obtain ⟨hm, hb, hfirst⟩ := foldl_peak_spec r x hpw
    rw [hcfold] at hm hb hfirst
    exact ⟨hm, hb, hfirst⟩

/-- C10 witness: with hour buckets 1 and 3 tied at two events each, the
peak hour is 1. -/
theorem C10_witness : (1, 2) ∈ hourlyList exPeakTie :=
  (C10_peak_first_hour exPeakTie (1, 2) (by decide)).1

end EKYC

